import Mathlib

/-!
# Verification of the What-If noise-filtering core

Shallow embedding of `src/bicep_whatif_advisor/noise_filter.py`.

Text is modelled as `String`; the Python functions are translated to
executable Lean definitions.  Python's `re.search` and
`difflib.SequenceMatcher.ratio` are external library calls, so they are
abstracted into a `MatchOracle` parameter; everything else (line
classification, block parsing, ARM-type extraction, pattern matching,
filtering, reclassification) is translated directly from the source.

String helpers mirror their Python counterparts for the ASCII range (the
repository's What-If text and patterns are ASCII): `pyLower` is
`str.lower`, `pyStrip` is `str.strip`, `strIn` is the substring operator
`in`, `pySplitLines` is `str.splitlines(keepends=True)`.
-/

namespace NoiseFilter

/-- Whitespace characters recognised by Python's `str.strip()` and the regex
class `\s` (ASCII portion). -/
def pyIsSpace (c : Char) : Bool :=
  c = ' ' || c = '\t' || c = '\n' || c = '\x0d' || c = '\x0b' || c = '\x0c'

/-- Python `str.lower()` (ASCII case folding, as used on the repository's
ASCII pattern and What-If text). -/
def pyLower (s : String) : String :=
  ⟨s.toList.map Char.toLower⟩

/-- Does `pre` occur at the start of `cs`?  (List-level helper.) -/
def leadMatch : List Char → List Char → Bool
  | [], _ => true
  | _ :: _, [] => false
  | a :: as, b :: bs => a == b && leadMatch as bs

/-- Does `needle` occur contiguously in `hay`?  (List-level helper for
Python's substring operator `in`.) -/
def subSeqIn (needle : List Char) : List Char → Bool
  | [] => leadMatch needle []
  | c :: cs => leadMatch needle (c :: cs) || subSeqIn needle (cs)

/-- Python `needle in hay` for strings. -/
def strIn (needle hay : String) : Bool :=
  subSeqIn needle.toList hay.toList

/-- Python `s.startswith(pre)`. -/
def pyStartsWith (s pre : String) : Bool :=
  leadMatch pre.toList s.toList

/-- Python `s.strip()` (whitespace from both ends). -/
def pyStrip (s : String) : String :=
  ⟨((s.toList.dropWhile pyIsSpace).reverse.dropWhile pyIsSpace).reverse⟩

/-- Line-break characters of Python `str.splitlines`. -/
def isLineBreakChar (c : Char) : Bool :=
  c = '\n' || c = '\x0d' || c = '\x0b' || c = '\x0c' ||
  c = '\x1c' || c = '\x1d' || c = '\x1e' || c = '\x85' ||
  c = '\u2028' || c = '\u2029'

/-- `str.splitlines(keepends=True)` at the character-list level: each
returned piece keeps its terminating break (with `\r\n` kept together);
a final piece without a terminator is returned as well. -/
def splitLinesChars : List Char → List (List Char)
  | [] => []
  | c :: cs =>
    if c = '\x0d' then
      match cs with
      | [] => [['\x0d']]
      | d :: cs' =>
        if d = '\n' then ['\x0d', '\n'] :: splitLinesChars cs'
        else ['\x0d'] :: splitLinesChars (d :: cs')
    else if isLineBreakChar c then
      [c] :: splitLinesChars cs
    else
      match splitLinesChars cs with
      | [] => [[c]]
      | l :: ls => (c :: l) :: ls

/-- Python `s.splitlines(keepends=True)`. -/
def pySplitLines (s : String) : List String :=
  (splitLinesChars s.toList).map (fun l => ⟨l⟩)

/-- `"".join(lines)`. -/
def strConcat (ls : List String) : String :=
  ls.foldr (fun a b => a ++ b) ""

end NoiseFilter

namespace NoiseFilter

/-- Pattern kind, per the pattern-file format: `regex:`, `fuzzy:`,
`resource:` prefixes, otherwise a keyword. -/
inductive PatternType where
  | keyword
  | regex
  | fuzzy
  | resource
deriving DecidableEq

/-- A noise pattern parsed from a patterns file (`ParsedPattern`). -/
structure ParsedPattern where
  raw : String
  pattern_type : PatternType
  value : String
deriving DecidableEq

/-- A parsed resource block from What-If output (`_ResourceBlock`). -/
structure ResourceBlock where
  header_line : String
  operation : String
  resource_type : String
  lines : List String
  property_change_indices : List Nat
deriving DecidableEq

/-- `_parse_pattern_line`: detect the `regex:` / `fuzzy:` / `resource:`
prefixes, otherwise a keyword pattern. -/
def parsePatternLine (line : String) : ParsedPattern :=
  if pyStartsWith line "regex:" then
    { raw := line, pattern_type := PatternType.regex, value := pyStrip ⟨line.toList.drop 6⟩ }
  else if pyStartsWith line "fuzzy:" then
    { raw := line, pattern_type := PatternType.fuzzy, value := pyStrip ⟨line.toList.drop 6⟩ }
  else if pyStartsWith line "resource:" then
    { raw := line, pattern_type := PatternType.resource, value := pyStrip ⟨line.toList.drop 9⟩ }
  else
    { raw := line, pattern_type := PatternType.keyword, value := line }

/-- `_is_property_change_line`: indent of at least 4 spaces and first
stripped character among `~`, `+`, `-`. -/
def isPropertyChangeLine (line : String) : Bool :=
  let stripped := line.toList.dropWhile (fun c => c = ' ')
  let indent := line.toList.length - stripped.length
  match stripped with
  | [] => false
  | c :: _ => if indent < 4 then false else (c = '+' || c = '-' || c = '~')

/-- The change symbols accepted by `_RESOURCE_HEADER_RE`. -/
def headerSymbols : List Char := ['~', '+', '-', '=', '*', 'x', '!']

/-- Does the token have a `/` strictly inside (so `\S+/\S+` can match it)? -/
def tokenHasInnerSlash (tok : List Char) : Bool :=
  ((tok.drop 1).dropLast).contains '/'

/-- `_RESOURCE_HEADER_RE.match(line)`: exactly two leading spaces, a change
symbol, at least one whitespace character, then a non-whitespace token
containing an interior `/`.  Returns the symbol and the captured token
(the resource-type group). -/
def headerMatch (line : String) : Option (Char × String) :=
  match line.toList with
  | ' ' :: ' ' :: c :: rest =>
    if headerSymbols.contains c then
      let ws := rest.takeWhile pyIsSpace
      let tok := (rest.dropWhile pyIsSpace).takeWhile (fun d => !pyIsSpace d)
      if ws.isEmpty then none
      else if tokenHasInnerSlash tok then some (c, ⟨tok⟩) else none
    else none
  | _ => none

/-- `_is_resource_header`. -/
def isResourceHeader (line : String) : Bool :=
  (headerMatch line).isSome

/-- `_SYMBOL_TO_OPERATION.get(symbol, "Modify")`. -/
def symbolToOperation (c : Char) : String :=
  if c = '~' then "Modify"
  else if c = '+' then "Create"
  else if c = '-' then "Delete"
  else if c = '=' then "Deploy"
  else if c = '*' then "NoChange"
  else if c = 'x' then "Ignore"
  else "Modify"

/-- Scan state of `_parse_resource_blocks`' forward loop. -/
structure ParseState where
  preamble : List String
  blocks : List ResourceBlock
  current : Option ResourceBlock
deriving DecidableEq

/-- One iteration of `_parse_resource_blocks`' forward loop. -/
def parseStep (st : ParseState) (line : String) : ParseState :=
  match headerMatch line with
  | some (sym, rtype) =>
    { preamble := st.preamble
      blocks := st.blocks ++ st.current.toList
      current := some { header_line := line, operation := symbolToOperation sym,
                        resource_type := rtype, lines := [line],
                        property_change_indices := [] } }
  | none =>
    match st.current with
    | some b =>
      { st with current := some { b with
          lines := b.lines ++ [line],
          property_change_indices := b.property_change_indices ++
            (if isPropertyChangeLine line then [b.lines.length] else []) } }
    | none => { st with preamble := st.preamble ++ [line] }

/-- The backward epilogue-detection loop of `_parse_resource_blocks`:
about to process index `k` (stopping before index 0), carrying the best
`epilogue_start` found so far.  A blank line is skipped, an unindented
non-blank line is recorded as the new `epilogue_start`, and an indented
non-blank line stops the walk. -/
def epilogueScan (ls : List String) : Nat → Option Nat → Option Nat
  | 0, acc => acc
  | k + 1, acc =>
    let line := ls.getD (k + 1) ""
    if (pyStrip line).isEmpty then epilogueScan ls k acc
    else if !(line == "") && !(pyStartsWith line " ") then epilogueScan ls k (some (k + 1))
    else acc

/-- Run the epilogue-detection loop over `ls` from the last index down to
index 1. -/
def findEpilogueStart (ls : List String) : Option Nat :=
  match ls.length with
  | 0 => none
  | n + 1 => epilogueScan ls n none

/-- The epilogue-splitting phase of `_parse_resource_blocks`: peel the
detected epilogue off the last block and drop the property-change indices
that fall into it. -/
def splitEpilogue (blocks : List ResourceBlock) : List ResourceBlock × List String :=
  match blocks.getLast? with
  | none => (blocks, [])
  | some lb =>
    match findEpilogueStart lb.lines with
    | none => (blocks, [])
    | some es =>
      (blocks.dropLast ++ [{ lb with
          lines := lb.lines.take es,
          property_change_indices := lb.property_change_indices.filter (fun j => decide (j < es)) }],
       lb.lines.drop es)

/-- `_parse_resource_blocks`: forward scan, close the last block, then the
epilogue pass.  Returns `(preamble, blocks, epilogue)`. -/
def parseResourceBlocks (lines : List String) :
    List String × List ResourceBlock × List String :=
  let st := lines.foldl parseStep { preamble := [], blocks := [], current := none }
  let blocks := st.blocks ++ st.current.toList
  let se := splitEpilogue blocks
  (st.preamble, se.1, se.2)

end NoiseFilter

namespace NoiseFilter

/-- `_extract_arm_type`'s `full_path.split("/")` (Python semantics: empty
segments are kept). -/
def splitOnSlash : List Char → List (List Char)
  | [] => [[]]
  | c :: cs =>
    if c = '/' then [] :: splitOnSlash cs
    else
      match splitOnSlash cs with
      | [] => [[c]]
      | l :: ls => (c :: l) :: ls

/-- Keep every other element starting with the first (the type segments at
even indices of the remainder). -/
def everyOther {α : Type} : List α → List α
  | [] => []
  | [a] => [a]
  | a :: _ :: rest => a :: everyOther rest

/-- `"/".join(segments)`. -/
def joinSlash : List (List Char) → List Char
  | [] => []
  | [l] => l
  | l :: ls => l ++ '/' :: joinSlash ls

/-- `_extract_arm_type`: drop the interleaved resource-name segments from a
full What-If resource path, keeping the namespace and the type segments. -/
def extractArmType (full_path : String) : String :=
  let parts := splitOnSlash full_path.toList
  if parts.length < 2 then full_path
  else
    match parts with
    | [] => full_path
    | ns :: remaining => ⟨ns ++ '/' :: joinSlash (everyOther remaining)⟩

/-- The two external library calls used by property matching, abstracted:
`reSearch pat line ignorecase` models `re.search(pat, line, re.IGNORECASE)`
(`Except.error` models `re.error` raised on an invalid pattern), and
`similarity a b` models `SequenceMatcher(None, a, b).ratio()`. -/
structure MatchOracle where
  reSearch : String → String → Bool → Except String Bool
  similarity : String → String → ℚ

/-- `_matches_pattern`: keyword is case-insensitive substring, regex defers
to the engine with `IGNORECASE` and maps an invalid-pattern error to
`false`, fuzzy compares the similarity ratio with the threshold; any other
pattern kind (`resource`) matches nothing. -/
def matchesPattern (o : MatchOracle) (line : String) (p : ParsedPattern)
    (fuzzy_threshold : ℚ) : Bool :=
  match p.pattern_type with
  | PatternType.keyword => strIn (pyLower p.value) (pyLower line)
  | PatternType.regex =>
    match o.reSearch p.value line true with
    | Except.ok b => b
    | Except.error _ => false
  | PatternType.fuzzy =>
    decide (fuzzy_threshold ≤ o.similarity (pyLower p.value) (pyLower line))
  | PatternType.resource => false

/-- `value.rsplit(":", 1)` for a value containing a colon: the parts before
and after the last colon. -/
def rsplitColon (s : String) : String × String :=
  let cs := s.toList
  let after := (cs.reverse.takeWhile (fun c => !(c = ':'))).reverse
  (⟨cs.take (cs.length - after.length - 1)⟩, ⟨after⟩)

/-- `{v.lower(): v for v in _VALID_OPERATIONS}.get(op.lower())`. -/
def opLookup (op : String) : Option String :=
  let l := pyLower op
  if l = "modify" then some "Modify"
  else if l = "create" then some "Create"
  else if l = "delete" then some "Delete"
  else if l = "deploy" then some "Deploy"
  else if l = "nochange" then some "NoChange"
  else if l = "ignore" then some "Ignore"
  else none

/-- `_matches_resource_pattern`: case-insensitive substring of the type part
against the raw path or its ARM type, with an optional operation suffix; an
unrecognized suffix falls back to matching the whole value as a type
substring. -/
def matchesResourcePattern (block : ResourceBlock) (p : ParsedPattern) : Bool :=
  let arm_type := extractArmType block.resource_type
  let typeMatch := fun (needle : String) =>
    strIn (pyLower needle) (pyLower block.resource_type) ||
    strIn (pyLower needle) (pyLower arm_type)
  let value := p.value
  if strIn ":" value then
    let tp := pyStrip (rsplitColon value).1
    let op := pyStrip (rsplitColon value).2
    match opLookup op with
    | some matched_op =>
      if !(typeMatch tp) then false else decide (block.operation = matched_op)
    | none => typeMatch value
  else typeMatch value

/-- `_matches_resource_pattern_post_llm`: as `_matches_resource_pattern`
but on the LLM-output type/action strings (no ARM-type alternative). -/
def matchesResourcePatternPostLLM (resource_type action : String)
    (p : ParsedPattern) : Bool :=
  let typeMatch := fun (needle : String) =>
    strIn (pyLower needle) (pyLower resource_type)
  let value := p.value
  if strIn ":" value then
    let tp := pyStrip (rsplitColon value).1
    let op := pyStrip (rsplitColon value).2
    match opLookup op with
    | some matched_op =>
      if !(typeMatch tp) then false else decide (pyLower action = pyLower matched_op)
    | none => typeMatch value
  else typeMatch value

/-- An LLM resource record (a Python dict): the fields `reclassify` reads
or writes are modelled as optional (`none` = key absent); all other keys
are carried opaquely in `extra` so frame conditions can be stated. -/
structure ResourceRecord where
  resource_type : Option String
  action : Option String
  confidence_level : Option String
  confidence_reason : Option String
  extra : List (String × String)
deriving DecidableEq

/-- One iteration of `reclassify_resource_noise`'s loop on one record:
returns the (possibly updated) record and whether it was counted. -/
def reclassifyStep (ps : List ParsedPattern) (r : ResourceRecord) :
    ResourceRecord × Bool :=
  let rt := r.resource_type.getD ""
  let ac := r.action.getD ""
  let conf := pyLower (r.confidence_level.getD "medium")
  if conf = "low" || conf = "noise" then (r, false)
  else if ps.any (fun p => matchesResourcePatternPostLLM rt ac p) then
    ({ r with confidence_level := some "low",
              confidence_reason := some "Matched resource noise pattern" }, true)
  else (r, false)

/-- `reclassify_resource_noise`: demote matching records to low confidence;
returns the updated records (mutation modelled by state passing) and the
count of records reclassified. -/
def reclassifyResourceNoise (resources : List ResourceRecord)
    (resource_patterns : List ParsedPattern) : List ResourceRecord × Nat :=
  if resource_patterns.isEmpty || resources.isEmpty then (resources, 0)
  else
    resources.foldl (fun acc r =>
      let s := reclassifyStep resource_patterns r
      (acc.1 ++ [s.1], acc.2 + (if s.2 then 1 else 0))) ([], 0)

end NoiseFilter

namespace NoiseFilter

/-- The `for i, line in enumerate(block.lines)` removal loop of
`filter_whatif_text`, started at index `i`: drop (and count) the lines
whose index is in `fi`, keep the rest in order. -/
def filterIdx (fi : List Nat) : Nat → List String → List String × Nat
  | _, [] => ([], 0)
  | i, l :: ls =>
    let r := filterIdx fi (i + 1) ls
    if fi.contains i then (r.1, r.2 + 1) else (l :: r.1, r.2)

/-- The per-block body of `filter_whatif_text`'s main loop: if the block has
property-change lines and some of them match a property pattern, keep the
block minus those lines (counting them); otherwise keep the block whole. -/
def blockKeep (o : MatchOracle) (thr : ℚ) (pp : List ParsedPattern)
    (b : ResourceBlock) : List String × Nat :=
  if b.property_change_indices.isEmpty then (b.lines, 0)
  else
    let fi := b.property_change_indices.filter (fun idx =>
      pp.any (fun p => matchesPattern o (b.lines.getD idx "") p thr))
    if fi.isEmpty then (b.lines, 0)
    else filterIdx fi 0 b.lines

/-- The flat fallback pass of `filter_whatif_text` (used when the parse
yields no blocks): drop each property-change line matching some property
pattern. -/
def fallbackFilter (o : MatchOracle) (pp : List ParsedPattern) (thr : ℚ)
    (lines : List String) : List String × Nat :=
  lines.foldl (fun acc line =>
    if isPropertyChangeLine line && pp.any (fun p => matchesPattern o line p thr) then
      (acc.1, acc.2 + 1)
    else (acc.1 ++ [line], acc.2)) ([], 0)

/-- `[p for p in patterns if p.pattern_type != "resource"]`. -/
def propertyPatternsOf (patterns : List ParsedPattern) : List ParsedPattern :=
  patterns.filter (fun p => decide (p.pattern_type ≠ PatternType.resource))

/-- The line-level body of `filter_whatif_text` (after `splitlines`): parse
into blocks; with no blocks fall back to flat filtering, otherwise filter
each block's property lines and reassemble preamble, surviving block lines
and epilogue. -/
def filterWhatifLines (o : MatchOracle) (lines : List String)
    (patterns : List ParsedPattern) (thr : ℚ) : List String × Nat :=
  let pp := propertyPatternsOf patterns
  let parsed := parseResourceBlocks lines
  if parsed.2.1.isEmpty then fallbackFilter o pp thr lines
  else
    let acc := parsed.2.1.foldl (fun acc b =>
      let k := blockKeep o thr pp b
      (acc.1 ++ k.1, acc.2 + k.2)) (parsed.1, 0)
    (acc.1 ++ parsed.2.2, acc.2)

/-- `filter_whatif_text(whatif_content, patterns, fuzzy_threshold)`:
resource patterns are dropped; with no property patterns left the text is
returned unchanged, otherwise the text is split into lines (keepends),
filtered, and joined back.  Returns `(filtered_text, num_lines_removed)`. -/
def filterWhatifText (o : MatchOracle) (whatif_content : String)
    (patterns : List ParsedPattern) (thr : ℚ) : String × Nat :=
  if (propertyPatternsOf patterns).isEmpty then (whatif_content, 0)
  else
    let r := filterWhatifLines o (pySplitLines whatif_content) patterns thr
    (strConcat r.1, r.2)

/-- What the filesystem holds at a path: a readable file with the given
text, no file at all, or a file whose read fails. -/
inductive FileContents where
  | found : String → FileContents
  | absent : FileContents
  | unreadable : FileContents
deriving DecidableEq

/-- The failures `load_user_patterns` can raise: `FileNotFoundError` for a
missing path, an OS read error otherwise. -/
inductive LoadFailure where
  | notFound
  | readFailed
deriving DecidableEq

/-- Text-mode file line splitting (universal newlines: `\n`, `\r\n`, `\r`),
as seen by `for line in f`. -/
def splitNewlineChars : List Char → List (List Char)
  | [] => []
  | '\x0d' :: '\n' :: cs => ['\x0d', '\n'] :: splitNewlineChars cs
  | c :: cs =>
    if c = '\n' || c = '\x0d' then [c] :: splitNewlineChars cs
    else
      match splitNewlineChars cs with
      | [] => [[c]]
      | l :: ls => (c :: l) :: ls

/-- `_load_patterns_from_path`'s parsing of the file body: strip each line,
skip blanks and `#` comments, parse the rest. -/
def loadPatternsFromText (content : String) : List ParsedPattern :=
  ((splitNewlineChars content.toList).map (fun l => pyStrip ⟨l⟩)).filterMap
    (fun line =>
      if !line.isEmpty && !(pyStartsWith line "#") then some (parsePatternLine line)
      else none)

/-- `load_user_patterns`: a missing path raises `FileNotFoundError`, an
unreadable file propagates the read error, otherwise the file is parsed.
The filesystem is passed explicitly as a map from paths to contents. -/
def loadUserPatterns (fs : String → FileContents) (file_path : String) :
    Except LoadFailure (List ParsedPattern) :=
  match fs file_path with
  | FileContents.absent => Except.error LoadFailure.notFound
  | FileContents.unreadable => Except.error LoadFailure.readFailed
  | FileContents.found c => Except.ok (loadPatternsFromText c)

/-- `load_builtin_patterns`: read the bundled pattern file at `data_path`,
returning `[]` if it is missing or unreadable (fail-safe). -/
def loadBuiltinPatterns (fs : String → FileContents) (data_path : String) :
    List ParsedPattern :=
  match fs data_path with
  | FileContents.found c => loadPatternsFromText c
  | FileContents.absent => []
  | FileContents.unreadable => []

end NoiseFilter

namespace NoiseFilter

lemma reclassify_foldl (ps : List ParsedPattern) (rs : List ResourceRecord)
    (acc : List ResourceRecord × Nat) :
    rs.foldl (fun acc r =>
        let s := reclassifyStep ps r
        (acc.1 ++ [s.1], acc.2 + (if s.2 then 1 else 0))) acc
      = (acc.1 ++ rs.map (fun r => (reclassifyStep ps r).1),
         acc.2 + rs.countP (fun r => (reclassifyStep ps r).2)) := by
  induction rs generalizing acc with
  | nil => simp
  | cons r rs ih =>
    simp only [List.foldl_cons, ih, List.map_cons, List.countP_cons]
    refine Prod.ext ?_ ?_ <;> simp
    omega

lemma reclassifyStep_of_empty (r : ResourceRecord) :
    reclassifyStep [] r = (r, false) := by
  unfold reclassifyStep
  simp only [List.any_nil, Bool.false_eq_true, if_false]
  split <;> rfl

lemma reclassify_eq (resources : List ResourceRecord) (ps : List ParsedPattern) :
    reclassifyResourceNoise resources ps
      = (resources.map (fun r => (reclassifyStep ps r).1),
         resources.countP (fun r => (reclassifyStep ps r).2)) := by
  unfold reclassifyResourceNoise
  split
  · rename_i h
    rcases Bool.or_eq_true_iff.mp h with h' | h'
    · have hps : ps = [] := List.isEmpty_iff.mp h'
      subst hps
      simp [reclassifyStep_of_empty]
    · have hrs : resources = [] := List.isEmpty_iff.mp h'
      subst hrs
      simp
  · have h := reclassify_foldl ps resources ([], 0)
    simpa using h

end NoiseFilter

namespace NoiseFilter

lemma reclassifyStep_cases (ps : List ParsedPattern) (r : ResourceRecord) :
    reclassifyStep ps r = (r, false) ∨
    reclassifyStep ps r =
      ({ r with confidence_level := some "low",
                confidence_reason := some "Matched resource noise pattern" }, true) := by
  unfold reclassifyStep
  dsimp only
  split
  · exact Or.inl rfl
  · split
    · exact Or.inr rfl
    · exact Or.inl rfl

lemma reclassifyStep_skip (ps : List ParsedPattern) (r : ResourceRecord)
    (h : pyLower (r.confidence_level.getD "medium") = "low" ∨
         pyLower (r.confidence_level.getD "medium") = "noise") :
    reclassifyStep ps r = (r, false) := by
  unfold reclassifyStep
  rcases h with h | h <;> simp [h]

lemma reclassifyStep_counted (ps : List ParsedPattern) (r : ResourceRecord) :
    (reclassifyStep ps r).2 =
      (!(pyLower (r.confidence_level.getD "medium") = "low" ||
         pyLower (r.confidence_level.getD "medium") = "noise") &&
       ps.any (fun p =>
         matchesResourcePatternPostLLM (r.resource_type.getD "")
           (r.action.getD "") p)) := by
  by_cases h1 : pyLower (r.confidence_level.getD "medium") = "low"
  · rw [reclassifyStep_skip ps r (Or.inl h1)]
    simp [h1]
  by_cases h2 : pyLower (r.confidence_level.getD "medium") = "noise"
  · rw [reclassifyStep_skip ps r (Or.inr h2)]
    simp [h2]
  by_cases h3 : (ps.any fun p =>
      matchesResourcePatternPostLLM (r.resource_type.getD "") (r.action.getD "") p) = true <;>
    simp [reclassifyStep, h1, h2, h3]

/-- C5: `reclassify` leaves records already at low/noise confidence
unchanged, never raises any record's confidence (the confidence level
either stays what it was or becomes `"low"`), never removes or reorders
records (the result is a pointwise map of the input), changes only the
`confidence_level` and `confidence_reason` fields of records matching some
resource pattern, and returns exactly the number of records it changed. -/
theorem reclassify_frame_and_count (resources : List ResourceRecord)
    (ps : List ParsedPattern) :
    (reclassifyResourceNoise resources ps).1 =
      resources.map (fun r => (reclassifyStep ps r).1) ∧
    (reclassifyResourceNoise resources ps).2 =
      resources.countP (fun r => (reclassifyStep ps r).2) ∧
    ∀ r : ResourceRecord,
      ((reclassifyStep ps r).1.resource_type = r.resource_type ∧
       (reclassifyStep ps r).1.action = r.action ∧
       (reclassifyStep ps r).1.extra = r.extra) ∧
      ((pyLower (r.confidence_level.getD "medium") = "low" ∨
        pyLower (r.confidence_level.getD "medium") = "noise") →
          reclassifyStep ps r = (r, false)) ∧
      (((reclassifyStep ps r).1 = r ∧ (reclassifyStep ps r).2 = false) ∨
       ((reclassifyStep ps r).1.confidence_level = some "low" ∧
        (reclassifyStep ps r).1.confidence_reason =
          some "Matched resource noise pattern" ∧
        (reclassifyStep ps r).2 = true)) ∧
      ((reclassifyStep ps r).2 =
        (!(pyLower (r.confidence_level.getD "medium") = "low" ||
           pyLower (r.confidence_level.getD "medium") = "noise") &&
         ps.any (fun p =>
           matchesResourcePatternPostLLM (r.resource_type.getD "")
             (r.action.getD "") p))) := by
  refine ⟨by rw [reclassify_eq], by rw [reclassify_eq], fun r => ⟨?_, ?_, ?_, ?_⟩⟩
  · rcases reclassifyStep_cases ps r with h | h <;> rw [h]
    · exact ⟨rfl, rfl, rfl⟩
    · exact ⟨rfl, rfl, rfl⟩
  · exact reclassifyStep_skip ps r
  · rcases reclassifyStep_cases ps r with h | h <;> rw [h]
    · exact Or.inl ⟨rfl, rfl⟩
    · exact Or.inr ⟨rfl, rfl, rfl⟩
  · exact reclassifyStep_counted ps r

end NoiseFilter

namespace NoiseFilter

/-- A regex/fuzzy engine that finds nothing: `re.search` succeeds with no
match and the similarity ratio is 0. -/
def plainOracle : MatchOracle :=
  { reSearch := fun _ _ _ => Except.ok false, similarity := fun _ _ => 0 }

/-- A regex engine for which every pattern is invalid (`re.error`). -/
def errOracle : MatchOracle :=
  { reSearch := fun _ _ _ => Except.error "unterminated character set",
    similarity := fun _ _ => 0 }

/-- C10: in `reclassify`, a record with no `confidence_level` field is
treated as `medium`, hence eligible: when it matches some resource pattern
it is demoted to low confidence and counted.  The low/noise skip check is
case-insensitive, so a record whose `confidence_level` lowercases to
`"low"` or `"noise"` (e.g. `"Low"`, `"NOISE"`) is left unchanged. -/
theorem reclassify_missing_confidence_defaults_medium
    (ps : List ParsedPattern) (r1 r2 : ResourceRecord) (s : String)
    (h1 : r1.confidence_level = none)
    (hm : ps.any (fun p =>
        matchesResourcePatternPostLLM (r1.resource_type.getD "")
          (r1.action.getD "") p) = true)
    (h2 : r2.confidence_level = some s)
    (hs : pyLower s = "low" ∨ pyLower s = "noise") :
    reclassifyResourceNoise [r1] ps =
      ([{ r1 with confidence_level := some "low",
                  confidence_reason := some "Matched resource noise pattern" }], 1) ∧
    reclassifyResourceNoise [r2] ps = ([r2], 0) := by
  constructor
  · have hstep : reclassifyStep ps r1 =
        ({ r1 with confidence_level := some "low",
                   confidence_reason := some "Matched resource noise pattern" }, true) := by
      simp only [reclassifyStep, h1, hm, Option.getD_some, Option.getD_none, if_true]
      rw [if_neg (by decide)]
    rw [reclassify_eq]
    simp [hstep]
  · have hstep : reclassifyStep ps r2 = (r2, false) :=
      reclassifyStep_skip ps r2 (by rw [h2]; simpa using hs)
    rw [reclassify_eq]
    simp [hstep]

theorem reclassify_missing_confidence_defaults_medium_witness :
    reclassifyResourceNoise
        [{ resource_type := some "Insights/diagnosticSettings",
           action := some "Modify", confidence_level := none,
           confidence_reason := none, extra := [] }]
        [{ raw := "resource: diagnosticSettings",
           pattern_type := PatternType.resource, value := "diagnosticSettings" }] =
      ([{ resource_type := some "Insights/diagnosticSettings",
          action := some "Modify", confidence_level := some "low",
          confidence_reason := some "Matched resource noise pattern",
          extra := [] }], 1) ∧
    reclassifyResourceNoise
        [{ resource_type := some "Insights/diagnosticSettings",
           action := some "Modify", confidence_level := some "NOISE",
           confidence_reason := none, extra := [] }]
        [{ raw := "resource: diagnosticSettings",
           pattern_type := PatternType.resource, value := "diagnosticSettings" }] =
      ([{ resource_type := some "Insights/diagnosticSettings",
          action := some "Modify", confidence_level := some "NOISE",
          confidence_reason := none, extra := [] }], 0) :=
  reclassify_missing_confidence_defaults_medium _ _ _ "NOISE"
    rfl (by decide) rfl (Or.inr (by decide))

/-- C9: when the supplied pattern list contains no property-level pattern
(keyword/regex/fuzzy) — in particular when it consists solely of resource
patterns, or is empty — `filter` returns the input text unchanged with a
removed-line count of 0. -/
theorem filter_no_property_patterns_id (o : MatchOracle) (content : String)
    (patterns : List ParsedPattern) (thr : ℚ)
    (h : ∀ p ∈ patterns, p.pattern_type = PatternType.resource) :
    filterWhatifText o content patterns thr = (content, 0) := by
  have hpp : propertyPatternsOf patterns = [] := by
    refine List.filter_eq_nil_iff.mpr (fun p hp => ?_)
    simp [h p hp]
  unfold filterWhatifText
  rw [hpp]
  rfl

theorem filter_no_property_patterns_id_witness :
    filterWhatifText plainOracle "  ~ a/b\n      ~ properties.etag: 1 => 2\n"
        [{ raw := "resource: a/b", pattern_type := PatternType.resource,
           value := "a/b" }] (4/5) =
      ("  ~ a/b\n      ~ properties.etag: 1 => 2\n", 0) :=
  filter_no_property_patterns_id plainOracle _ _ _ (by decide)

/-- C7: for a regex-kind pattern, property matching hands the pattern value
and line to the regex engine with the case-insensitive flag set, uses the
result directly, and maps an engine error (invalid pattern) to `false`
instead of raising — `matchesPattern` is total, so filtering never aborts
because of one malformed pattern. -/
theorem regex_match_error_is_false (o : MatchOracle) (line : String)
    (p : ParsedPattern) (thr : ℚ) (h : p.pattern_type = PatternType.regex) :
    (matchesPattern o line p thr =
      match o.reSearch p.value line true with
      | Except.ok b => b
      | Except.error _ => false) ∧
    (∀ e : String, o.reSearch p.value line true = Except.error e →
      matchesPattern o line p thr = false) := by
  constructor
  · simp [matchesPattern, h]
  · intro e he
    simp [matchesPattern, h, he]

theorem regex_match_error_is_false_witness :
    (matchesPattern errOracle "anything"
        { raw := "regex: [invalid", pattern_type := PatternType.regex,
          value := "[invalid" } (4/5) =
      match errOracle.reSearch "[invalid" "anything" true with
      | Except.ok b => b
      | Except.error _ => false) ∧
    (∀ e : String,
      errOracle.reSearch "[invalid" "anything" true = Except.error e →
        matchesPattern errOracle "anything"
          { raw := "regex: [invalid", pattern_type := PatternType.regex,
            value := "[invalid" } (4/5) = false) :=
  regex_match_error_is_false errOracle "anything" _ _ rfl

/-- C8: loading an explicitly requested user pattern file whose path does
not exist fails with `NotFound`, while loading the built-in pattern source
returns an empty pattern list, without raising, when the built-in file is
missing or unreadable. -/
theorem load_patterns_failure_modes (fs : String → FileContents)
    (user_path builtin_path : String)
    (h1 : fs user_path = FileContents.absent)
    (h2 : fs builtin_path = FileContents.absent ∨
          fs builtin_path = FileContents.unreadable) :
    loadUserPatterns fs user_path = Except.error LoadFailure.notFound ∧
    loadBuiltinPatterns fs builtin_path = [] := by
  constructor
  · unfold loadUserPatterns
    rw [h1]
  · unfold loadBuiltinPatterns
    rcases h2 with h2 | h2 <;> rw [h2]

theorem load_patterns_failure_modes_witness :
    loadUserPatterns (fun _ => FileContents.absent) "my_patterns.txt" =
      Except.error LoadFailure.notFound ∧
    loadBuiltinPatterns (fun _ => FileContents.absent)
      "data/builtin_noise_patterns.txt" = [] :=
  load_patterns_failure_modes (fun _ => FileContents.absent)
    "my_patterns.txt" "data/builtin_noise_patterns.txt" rfl (Or.inl rfl)

end NoiseFilter

namespace NoiseFilter

/-- C6: for a resource pattern whose value contains a colon, if the text
after the last colon (trimmed) is a recognized operation name
(case-insensitively), the pattern matches a block exactly when the trimmed
type part is a case-insensitive substring of the block's raw or canonical
ARM type AND the block's operation equals that operation; if the suffix is
not recognized, the whole value (colon included) is matched as a literal
case-insensitive type substring instead.  `matchesResourcePattern` is a
total function, so no error is raised in either case. -/
theorem resource_pattern_colon_semantics (b : ResourceBlock) (p : ParsedPattern)
    (h : strIn ":" p.value = true) :
    (∀ opName : String,
      opLookup (pyStrip (rsplitColon p.value).2) = some opName →
        matchesResourcePattern b p =
          ((strIn (pyLower (pyStrip (rsplitColon p.value).1))
              (pyLower b.resource_type) ||
            strIn (pyLower (pyStrip (rsplitColon p.value).1))
              (pyLower (extractArmType b.resource_type))) &&
           decide (b.operation = opName))) ∧
    (opLookup (pyStrip (rsplitColon p.value).2) = none →
      matchesResourcePattern b p =
        (strIn (pyLower p.value) (pyLower b.resource_type) ||
         strIn (pyLower p.value) (pyLower (extractArmType b.resource_type)))) := by
  have hb : ∀ x y : Bool, (if (!x) = true then false else y) = (x && y) := by
    intro x y
    cases x <;> simp
  constructor
  · intro opName hop
    simp only [matchesResourcePattern, h, if_true, hop]
    exact hb _ _
  · intro hop
    simp only [matchesResourcePattern, h, if_true, hop]

theorem resource_pattern_colon_semantics_witness :
    strIn ":" "diagnosticSettings:Modify" = true ∧
    opLookup (pyStrip (rsplitColon "diagnosticSettings:Modify").2) = some "Modify" ∧
    matchesResourcePattern
      { header_line := "  ~ Microsoft.Insights/diagnosticSettings/diag1",
        operation := "Modify",
        resource_type := "Microsoft.Insights/diagnosticSettings/diag1",
        lines := ["  ~ Microsoft.Insights/diagnosticSettings/diag1"],
        property_change_indices := [] }
      { raw := "resource: diagnosticSettings:Modify",
        pattern_type := PatternType.resource,
        value := "diagnosticSettings:Modify" } = true := by
  refine ⟨by decide, by decide, ?_⟩
  rw [(resource_pattern_colon_semantics _ _ (by decide)).1 "Modify" (by decide)]
  decide

end NoiseFilter

namespace NoiseFilter

/-- The Modify block of the repository's auto-suppression test: two
property-change lines, with keyword patterns matching both. -/
def c1Input : String :=
  "  ~ Microsoft.Network/virtualNetworks/myvnet [2022-07-01]\n" ++
  "      ~ properties.etag: \"a\" => \"b\"\n" ++
  "      ~ properties.provisioningState: \"s\" => \"u\"\n"

def c1Patterns : List ParsedPattern :=
  [{ raw := "etag", pattern_type := PatternType.keyword, value := "etag" },
   { raw := "provisioningState", pattern_type := PatternType.keyword,
     value := "provisioningState" }]

/-- C1: evaluation of the code at the failing input.  For a Modify block
whose every property-change line matches a pattern, `filter_whatif_text`
keeps the block's header line (the output still contains
`virtualNetworks`) and returns only `(filtered_text, 2)` — there is no
block suppression, no `blocks_removed` count and no `removed_block_info`,
contrary to the claim (and to the repository's own test
`test_modify_block_all_filtered_suppressed`). -/
theorem modify_block_not_suppressed_eval :
    filterWhatifText plainOracle c1Input c1Patterns (4/5) =
      ("  ~ Microsoft.Network/virtualNetworks/myvnet [2022-07-01]\n", 2) ∧
    strIn "virtualNetworks" (filterWhatifText plainOracle c1Input c1Patterns (4/5)).1 = true := by
  constructor
  · decide
  · decide

/-- The resource-pattern test block: a Modify `diagnosticSettings` block
and a resource pattern matching it. -/
def c2Input : String :=
  "  ~ Microsoft.Insights/diagnosticSettings/diag1 [2021-05-01]\n" ++
  "      ~ properties.logAnalyticsDestinationType: \"D\" => \"\"\n"

def c2Patterns : List ParsedPattern :=
  [{ raw := "resource: diagnosticSettings", pattern_type := PatternType.resource,
     value := "diagnosticSettings" }]

/-- C2: evaluation of the code at the failing input.  `filter_whatif_text`
filters out all resource-kind patterns before doing anything else, so a
block matched by a resource pattern is NOT dropped: the function returns
the input unchanged with a count of 0 (and produces no `blocks_removed`
or `removed_block_info` at all), contrary to the claim (and to the
repository's own `TestResourcePatternFiltering` tests). -/
theorem resource_patterns_ignored_prefilter_eval :
    filterWhatifText plainOracle c2Input c2Patterns (4/5) = (c2Input, 0) ∧
    strIn "diagnosticSettings" (filterWhatifText plainOracle c2Input c2Patterns (4/5)).1 = true := by
  constructor
  · rfl
  · decide

end NoiseFilter

namespace NoiseFilter

/-- A line the epilogue walk may step over or mark: blank, or not starting
with a space. -/
def blankOrUnindented (l : String) : Prop :=
  (pyStrip l).isEmpty = true ∨ pyStartsWith l " " = false

lemma epilogueScan_spec (ls : List String) :
    ∀ (k : Nat) (acc : Option Nat), k ≤ ls.length - 1 →
      (∀ j, k < j → j ≤ ls.length - 1 → blankOrUnindented (ls.getD j "")) →
      (∀ a, acc = some a → 1 ≤ a ∧ a ≤ ls.length - 1 ∧ k < a) →
      ∀ es, epilogueScan ls k acc = some es →
        1 ≤ es ∧ es ≤ ls.length - 1 ∧
        ∀ j, es ≤ j → j ≤ ls.length - 1 → blankOrUnindented (ls.getD j "") := by
  intro k
  induction k with
  | zero =>
    intro acc _ hgood hacc es hes
    simp only [epilogueScan] at hes
    obtain ⟨h1, h2, _⟩ := hacc es hes
    exact ⟨h1, h2, fun j hj1 hj2 => hgood j (by omega) hj2⟩
  | succ k ih =>
    intro acc hk hgood hacc es hes
    simp only [epilogueScan] at hes
    by_cases hb : (pyStrip (ls.getD (k + 1) "")).isEmpty = true
    · rw [if_pos hb] at hes
      refine ih acc (by omega) (fun j hj1 hj2 => ?_) (fun a ha => ?_) es hes
      · rcases Nat.lt_or_ge k.succ j with hj | hj
        · exact hgood j hj hj2
        · have : j = k + 1 := by omega
          subst this
          exact Or.inl hb
      · obtain ⟨ha1, ha2, ha3⟩ := hacc a ha
        exact ⟨ha1, ha2, by omega⟩
    · rw [if_neg hb] at hes
      by_cases hm : (!(ls.getD (k + 1) "" == "") && !(pyStartsWith (ls.getD (k + 1) "") " ")) = true
      · rw [if_pos hm] at hes
        refine ih (some (k + 1)) (by omega) (fun j hj1 hj2 => ?_) (fun a ha => ?_) es hes
        · rcases Nat.lt_or_ge k.succ j with hj | hj
          · exact hgood j hj hj2
          · have : j = k + 1 := by omega
            subst this
            have := (Bool.and_eq_true _ _).mp hm
            exact Or.inr (by simpa using this.2)
        · obtain rfl : k + 1 = a := Option.some.inj ha
          exact ⟨by omega, hk, by omega⟩
      · rw [if_neg hm] at hes
        obtain ⟨h1, h2, h3⟩ := hacc es hes
        exact ⟨h1, h2, fun j hj1 hj2 => hgood j (by omega) hj2⟩

lemma findEpilogueStart_spec (ls : List String) (es : Nat)
    (hes : findEpilogueStart ls = some es) :
    1 ≤ es ∧ es < ls.length ∧
    ∀ j, es ≤ j → j < ls.length → blankOrUnindented (ls.getD j "") := by
  unfold findEpilogueStart at hes
  cases hlen : ls.length with
  | zero => rw [hlen] at hes; exact absurd hes (by simp)
  | succ n =>
    rw [hlen] at hes
    have h := epilogueScan_spec ls n none (by omega)
      (fun j hj1 hj2 => by omega) (fun a ha => by simp at ha) es hes
    obtain ⟨h1, h2, h3⟩ := h
    rw [hlen] at h2 h3
    exact ⟨h1, by omega, fun j hj1 hj2 => h3 j hj1 (by omega)⟩

end NoiseFilter

namespace NoiseFilter

/-- C4 counterexample: on this input the parsed epilogue is
`["epi1\n", "\n", "epi2\n"]` — the backward walk skipped the blank line
and kept peeling, so the peeled epilogue contains a blank line and reaches
past it, contrary to the claim that peeling stops at the first indented or
blank line encountered going backward. -/
theorem epilogue_passes_blank_line_counterexample :
    (parseResourceBlocks
        ["  ~ Microsoft.Test/things/t1\n", "epi1\n", "\n", "epi2\n"]).2.2 =
      ["epi1\n", "\n", "epi2\n"] ∧
    "\n" ∈ (parseResourceBlocks
        ["  ~ Microsoft.Test/things/t1\n", "epi1\n", "\n", "epi2\n"]).2.2 ∧
    (pyStrip "\n").isEmpty = true :=
  ⟨by decide, by decide, by decide⟩

/-- C4 (amended): epilogue detection walks the last block's lines backward,
skipping blank lines and peeling unindented non-blank lines; it stops at
the first indented non-blank line.  Hence the peel point `es` is at least 1
(the block keeps its header line), every peeled line is blank or unindented
(blank lines between peeled lines are carried into the epilogue), and the
property-change indices at or beyond the peel point are dropped. -/
theorem epilogue_detection_amended (bs : List ResourceBlock) (lb : ResourceBlock)
    (h1 : lb.lines ≠ [])
    (h2 : ∀ i ∈ lb.property_change_indices, i < lb.lines.length) :
    ∃ es : Nat, 1 ≤ es ∧ es ≤ lb.lines.length ∧
      splitEpilogue (bs ++ [lb]) =
        (bs ++ [{ lb with
                   lines := lb.lines.take es,
                   property_change_indices :=
                     lb.property_change_indices.filter (fun j => decide (j < es)) }],
         lb.lines.drop es) ∧
      ∀ l ∈ lb.lines.drop es,
        (pyStrip l).isEmpty = true ∨ pyStartsWith l " " = false := by
  cases hes : findEpilogueStart lb.lines with
  | none =>
    refine ⟨lb.lines.length, ?_, le_refl _, ?_, ?_⟩
    · cases hl : lb.lines with
      | nil => exact absurd hl h1
      | cons a as => simp
    · have ht : lb.lines.take lb.lines.length = lb.lines :=
        List.take_of_length_le (le_refl _)
      have hd : lb.lines.drop lb.lines.length = [] :=
        List.drop_eq_nil_of_le (le_refl _)
      have hf : lb.property_change_indices.filter
          (fun j => decide (j < lb.lines.length)) = lb.property_change_indices :=
        List.filter_eq_self.mpr (fun i hi => decide_eq_true (h2 i hi))
      simp only [splitEpilogue, List.getLast?_concat, hes, ht, hd, hf]
    · intro l hl
      rw [List.drop_eq_nil_of_le (le_refl _)] at hl
      simp at hl
  | some es =>
    obtain ⟨hs1, hs2, hs3⟩ := findEpilogueStart_spec lb.lines es hes
    refine ⟨es, hs1, by omega, ?_, ?_⟩
    · simp only [splitEpilogue, List.getLast?_concat, hes, List.dropLast_concat]
    · intro l hl
      obtain ⟨t, ht, rfl⟩ := List.getElem_of_mem hl
      have hlen : es + t < lb.lines.length := by
        rw [List.length_drop] at ht
        omega
      have hge : (lb.lines.drop es)[t] = lb.lines[es + t] := List.getElem_drop _
      rw [hge]
      have hgd : lb.lines.getD (es + t) "" = lb.lines[es + t] := by
        rw [List.getD_eq_getElem?_getD, List.getElem?_eq_getElem hlen]
        rfl
      have hb := hs3 (es + t) (by omega) hlen
      rw [hgd] at hb
      exact hb

/-- The last (and only) block parsed from the C4 counterexample input. -/
def c4Block : ResourceBlock :=
  { header_line := "  ~ Microsoft.Test/things/t1\n",
    operation := "Modify",
    resource_type := "Microsoft.Test/things/t1",
    lines := ["  ~ Microsoft.Test/things/t1\n", "epi1\n", "\n", "epi2\n"],
    property_change_indices := [] }

theorem epilogue_detection_amended_witness :
    ∃ es : Nat, 1 ≤ es ∧ es ≤ c4Block.lines.length ∧
      splitEpilogue [c4Block] =
        ([{ c4Block with
             lines := c4Block.lines.take es,
             property_change_indices :=
               c4Block.property_change_indices.filter (fun j => decide (j < es)) }],
         c4Block.lines.drop es) ∧
      ∀ l ∈ c4Block.lines.drop es,
        (pyStrip l).isEmpty = true ∨ pyStartsWith l " " = false :=
  epilogue_detection_amended [] c4Block (by decide) (by decide)

end NoiseFilter

namespace NoiseFilter

/-- All input lines consumed into a parse state, in order. -/
def stLines (st : ParseState) : List String :=
  st.preamble ++ (st.blocks.map (fun b => b.lines)).flatten ++
    ((st.current.map (fun b => b.lines)).getD [])

/-- Before the first header is seen, no block has been closed. -/
def stWF (st : ParseState) : Prop :=
  st.current = none → st.blocks = []

lemma parseStep_wf (st : ParseState) (l : String) (h : stWF st) :
    stWF (parseStep st l) := by
  unfold parseStep
  cases hm : headerMatch l with
  | some v => intro hc; simp at hc
  | none =>
    cases hc : st.current with
    | some b => intro hc2; simp at hc2
    | none => intro _; exact h hc

lemma parseStep_lines (st : ParseState) (l : String) (h : stWF st) :
    stLines (parseStep st l) = stLines st ++ [l] := by
  unfold parseStep stLines
  cases hm : headerMatch l with
  | some v =>
    cases hc : st.current with
    | none =>
      rw [h hc]
      simp
    | some b =>
      simp [List.flatten_append, List.append_assoc]
  | none =>
    cases hc : st.current with
    | some b => simp
    | none =>
      rw [h hc]
      simp

lemma foldl_parseStep (ls : List String) (st : ParseState) (h : stWF st) :
    stWF (ls.foldl parseStep st) ∧
    stLines (ls.foldl parseStep st) = stLines st ++ ls := by
  induction ls generalizing st with
  | nil => exact ⟨h, by simp⟩
  | cons l ls ih =>
    obtain ⟨hw, hl⟩ := ih (parseStep st l) (parseStep_wf st l h)
    refine ⟨hw, ?_⟩
    rw [List.foldl_cons] at *
    rw [hl, parseStep_lines st l h, List.append_assoc]
    rfl

lemma splitEpilogue_partition (blocks : List ResourceBlock) :
    (((splitEpilogue blocks).1.map (fun b => b.lines)).flatten ++
      (splitEpilogue blocks).2) = (blocks.map (fun b => b.lines)).flatten := by
  unfold splitEpilogue
  cases hl : blocks.getLast? with
  | none => simp
  | some lb =>
    cases hes : findEpilogueStart lb.lines with
    | none => simp [hes]
    | some es =>
      have hne : blocks ≠ [] := by
        intro h
        subst h
        simp at hl
      have hblocks : blocks = blocks.dropLast ++ [lb] := by
        have := List.dropLast_concat_getLast hne
        rw [List.getLast?_eq_getLast blocks hne] at hl
        rw [← Option.some.inj hl]
        exact this.symm
      conv_rhs => rw [hblocks]
      simp only [hes, List.map_append, List.flatten_append, List.map_cons, List.map_nil,
        List.flatten_cons, List.flatten_nil, List.append_nil, List.append_assoc]
      rw [List.take_append_drop]

lemma parseResourceBlocks_partition (lines : List String) :
    (parseResourceBlocks lines).1 ++
      (((parseResourceBlocks lines).2.1.map (fun b => b.lines)).flatten ++
        (parseResourceBlocks lines).2.2) = lines := by
  unfold parseResourceBlocks
  have h0 : stWF { preamble := [], blocks := [], current := none } := fun _ => rfl
  obtain ⟨_, hl⟩ := foldl_parseStep lines _ h0
  set st := lines.foldl parseStep { preamble := [], blocks := [], current := none } with hst
  have hcur : ((st.blocks ++ st.current.toList).map (fun b => b.lines)).flatten =
      (st.blocks.map (fun b => b.lines)).flatten ++
        ((st.current.map (fun b => b.lines)).getD []) := by
    cases st.current <;> simp
  rw [splitEpilogue_partition, hcur]
  have : stLines st = lines := by
    rw [hl]
    simp [stLines]
  rw [← this]
  simp [stLines, List.append_assoc]

end NoiseFilter

namespace NoiseFilter

lemma filterIdx_sublist (fi : List Nat) (i : Nat) (ls : List String) :
    (filterIdx fi i ls).1.Sublist ls := by
  induction ls generalizing i with
  | nil => simp [filterIdx]
  | cons l ls ih =>
    unfold filterIdx
    by_cases hc : fi.contains i
    · rw [if_pos hc]
      exact (ih (i + 1)).cons l
    · rw [if_neg hc]
      exact (ih (i + 1)).cons₂ l

lemma blockKeep_sublist (o : MatchOracle) (thr : ℚ) (pp : List ParsedPattern)
    (b : ResourceBlock) : (blockKeep o thr pp b).1.Sublist b.lines := by
  unfold blockKeep
  split
  · exact List.Sublist.refl _
  · dsimp only
    split
    · exact List.Sublist.refl _
    · exact filterIdx_sublist _ 0 b.lines

lemma flatten_sublist_flatten {α β : Type} (l : List β) (f g : β → List α)
    (h : ∀ b ∈ l, (f b).Sublist (g b)) :
    ((l.map f).flatten).Sublist ((l.map g).flatten) := by
  induction l with
  | nil => simp
  | cons b l ih =>
    simp only [List.map_cons, List.flatten_cons]
    exact (h b (by simp)).append (ih (fun x hx => h x (by simp [hx])))

lemma blocks_foldl_fst (o : MatchOracle) (thr : ℚ) (pp : List ParsedPattern)
    (blocks : List ResourceBlock) (acc : List String × Nat) :
    (blocks.foldl (fun acc b =>
        let k := blockKeep o thr pp b
        (acc.1 ++ k.1, acc.2 + k.2)) acc).1 =
      acc.1 ++ (blocks.map (fun b => (blockKeep o thr pp b).1)).flatten := by
  induction blocks generalizing acc with
  | nil => simp
  | cons b blocks ih =>
    simp only [List.foldl_cons, ih, List.map_cons, List.flatten_cons, List.append_assoc]

lemma fallback_foldl_fst (o : MatchOracle) (pp : List ParsedPattern) (thr : ℚ)
    (ls : List String) (acc : List String × Nat) :
    (ls.foldl (fun acc line =>
        if isPropertyChangeLine line && pp.any (fun p => matchesPattern o line p thr) then
          (acc.1, acc.2 + 1)
        else (acc.1 ++ [line], acc.2)) acc).1 =
      acc.1 ++ ls.filter (fun line =>
        !(isPropertyChangeLine line && pp.any (fun p => matchesPattern o line p thr))) := by
  induction ls generalizing acc with
  | nil => simp
  | cons l ls ih =>
    simp only [List.foldl_cons]
    by_cases hc : (isPropertyChangeLine l &&
        pp.any (fun p => matchesPattern o l p thr)) = true
    · rw [if_pos hc, ih, List.filter_cons, if_neg (by simp [hc])]
    · have hc' : (isPropertyChangeLine l &&
          pp.any (fun p => matchesPattern o l p thr)) = false := by
        revert hc
        cases (isPropertyChangeLine l && pp.any (fun p => matchesPattern o l p thr)) <;> simp
      rw [if_neg hc, ih, List.filter_cons, if_pos (by rw [hc']; rfl)]
      simp

lemma fallbackFilter_sublist (o : MatchOracle) (pp : List ParsedPattern) (thr : ℚ)
    (ls : List String) : (fallbackFilter o pp thr ls).1.Sublist ls := by
  unfold fallbackFilter
  rw [fallback_foldl_fst]
  simp only [List.nil_append]
  exact List.filter_sublist ls

/-- The surviving lines of `filter_whatif_text` form a subsequence of the
input lines. -/
theorem filterWhatifLines_sublist (o : MatchOracle) (lines : List String)
    (patterns : List ParsedPattern) (thr : ℚ) :
    (filterWhatifLines o lines patterns thr).1.Sublist lines := by
  unfold filterWhatifLines
  dsimp only
  split
  · exact fallbackFilter_sublist _ _ _ lines
  · have hpart := parseResourceBlocks_partition lines
    rw [blocks_foldl_fst]
    have hsub := flatten_sublist_flatten (parseResourceBlocks lines).2.1
      (fun b => (blockKeep o thr (propertyPatternsOf patterns) b).1)
      (fun b => b.lines)
      (fun b _ => blockKeep_sublist o thr (propertyPatternsOf patterns) b)
    have h1 : List.Sublist
        (((parseResourceBlocks lines).1 ++
            ((parseResourceBlocks lines).2.1.map
              (fun b => (blockKeep o thr (propertyPatternsOf patterns) b).1)).flatten) ++
          (parseResourceBlocks lines).2.2)
        (((parseResourceBlocks lines).1 ++
            ((parseResourceBlocks lines).2.1.map (fun b => b.lines)).flatten) ++
          (parseResourceBlocks lines).2.2) :=
      ((List.Sublist.refl _).append hsub).append (List.Sublist.refl _)
    have h2 : (((parseResourceBlocks lines).1 ++
          ((parseResourceBlocks lines).2.1.map (fun b => b.lines)).flatten) ++
        (parseResourceBlocks lines).2.2) = lines := by
      rw [List.append_assoc]
      exact hpart
    conv_rhs => rw [← h2]
    exact h1

end NoiseFilter


namespace NoiseFilter

lemma splitLinesChars_flatten (cs : List Char) :
    (splitLinesChars cs).flatten = cs := by
  induction cs using splitLinesChars.induct with
  | case1 => rfl
  | case2 =>
    rw [splitLinesChars.eq_def]
    simp
  | case3 cs ih =>
    rw [splitLinesChars.eq_def]
    simp [ih]
  | case4 d cs hne ih =>
    rw [splitLinesChars.eq_def]
    simp [hne, ih]
  | case5 d cs hc hbr ih =>
    rw [splitLinesChars.eq_def]
    simp [hc, hbr, ih]
  | case6 d cs hc hbr heq ih =>
    rw [heq] at ih
    simp only [List.flatten_nil] at ih
    rw [splitLinesChars.eq_def]
    subst ih
    simp [hc, hbr, heq]
  | case7 d cs hc hbr l ls heq ih =>
    rw [heq] at ih
    simp only [List.flatten_cons] at ih
    rw [splitLinesChars.eq_def]
    simp [hc, hbr, heq, ih]

lemma strConcat_map_mk (ls : List (List Char)) :
    strConcat (ls.map (fun l => (⟨l⟩ : String))) = ⟨ls.flatten⟩ := by
  induction ls with
  | nil => rfl
  | cons a ls ih =>
    show (⟨a⟩ : String) ++ strConcat (ls.map (fun l => (⟨l⟩ : String))) = _
    rw [ih]
    rfl

/-- Splitting a string into keepends lines and joining them back yields the
original string. -/
lemma strConcat_pySplitLines (s : String) : strConcat (pySplitLines s) = s := by
  unfold pySplitLines
  rw [strConcat_map_mk, splitLinesChars_flatten]
  rfl

end NoiseFilter

namespace NoiseFilter

/-- C3 counterexample: on input `"a\r      ~ x etag\n\n"` with the keyword
pattern `etag`, the filter removes the matching property-change line and
joins the kept lines into `"a\r\n"`; re-splitting that output yields the
single line `"a\r\n"` (the bare `\r` of the first kept line and the `\n`
of the second merge into one CRLF line), which is not a subsequence of the
input's line sequence `["a\r", "      ~ x etag\n", "\n"]` — so the output's
line sequence is not always a subsequence of the input's. -/
theorem filtered_lines_not_subsequence_counterexample :
    pySplitLines (filterWhatifText plainOracle "a\x0d      ~ x etag\n\n"
        [{ raw := "etag", pattern_type := PatternType.keyword,
           value := "etag" }] (4/5)).1 = ["a\x0d\n"] ∧
    pySplitLines "a\x0d      ~ x etag\n\n" =
      ["a\x0d", "      ~ x etag\n", "\n"] ∧
    ¬ List.Sublist
        (pySplitLines (filterWhatifText plainOracle "a\x0d      ~ x etag\n\n"
          [{ raw := "etag", pattern_type := PatternType.keyword,
             value := "etag" }] (4/5)).1)
        (pySplitLines "a\x0d      ~ x etag\n\n") := by
  refine ⟨by decide, by decide, fun h => ?_⟩
  have hmem : "a\x0d\n" ∈ pySplitLines "a\x0d      ~ x etag\n\n" :=
    h.subset (by decide)
  exact absurd hmem (by decide)

/-- C3 (amended): for every input text, pattern list and fuzzy threshold,
the filtered text returned by `filter_whatif_text` is the concatenation of
a subsequence of the input's lines — no line is added, reordered or
altered in content; lines are only removed.  (Re-splitting the output can
merge a kept line ending in a bare `\r` with a following kept `"\n"` line
into one CRLF line, so the output's own line sequence need not literally
be a subsequence of the input's; see the counterexample.) -/
theorem filter_conservation_amended (o : MatchOracle) (content : String)
    (patterns : List ParsedPattern) (thr : ℚ) :
    ∃ kept : List String,
      List.Sublist kept (pySplitLines content) ∧
      (filterWhatifText o content patterns thr).1 = strConcat kept := by
  unfold filterWhatifText
  dsimp only
  split
  · exact ⟨pySplitLines content, List.Sublist.refl _,
      (strConcat_pySplitLines content).symm⟩
  · exact ⟨(filterWhatifLines o (pySplitLines content) patterns thr).1,
      filterWhatifLines_sublist o (pySplitLines content) patterns thr, rfl⟩

end NoiseFilter
